import Mathlib

/-!
Shallow embedding of the client-side response cache and cache-aware fetch
layer of the tv-explorer repository (src/utils/cache.ts and the TMDB api
module), together with proofs of the specification claims about them.

Modelling conventions:
* JavaScript `Map<string, CacheItem>` is modelled as an insertion-ordered
  association list `List (String × CacheItem)`; `Map.set` replaces the
  first matching key in place (preserving its position) and otherwise
  appends, `Map.delete` removes the matching entries, and
  `map.keys().next().value` is the head key.  In every state reachable
  through the API the keys are pairwise distinct, exactly as in a JS Map.
* `Date.now()` is an explicit `now : Nat` argument (milliseconds).
* JavaScript values that flow through the cache are modelled by `JSVal`,
  with JS truthiness (`if (x)`) modelled by `jsTruthy` — in particular
  `0`, `false`, `""` and `null` are falsy.
* `x || d` on numbers (used for ttl / maxSize / defaultTTL defaults) is
  modelled by `jsOr`: `0` and `undefined` both fall back to the default.
* The network is a function `Nat → NetResp` from attempt index to
  response; a decoded JSON body is a `JSVal`.  Async/await sequencing is
  modelled by explicit state passing; promise rejection is an `Except`
  error value carrying the thrown `Error`'s message string.
* `String.includes` is modelled by `strIncludes` (substring test).
-/

/-- JavaScript runtime values as far as the cache layer observes them. -/
inductive JSVal where
  | vundefined : JSVal
  | vnull : JSVal
  | vbool : Bool → JSVal
  | vnum : Int → JSVal
  | vstr : String → JSVal
  deriving DecidableEq, Repr

/-- JS truthiness of a value (`if (x)`): `undefined`, `null`, `false`,
`0` and the empty string are falsy. -/
def jsTruthy : JSVal → Bool
  | .vundefined => false
  | .vnull => false
  | .vbool b => b
  | .vnum n => decide (n ≠ 0)
  | .vstr s => decide (s ≠ "")

/-- JS `toString` on the values that reach `URLSearchParams.append`. -/
def jsToString : JSVal → String
  | .vundefined => "undefined"
  | .vnull => "null"
  | .vbool b => if b then "true" else "false"
  | .vnum n => toString n
  | .vstr s => s

/-- JS numeric `x || d`: `undefined` and `0` fall back to the default. -/
def jsOr : Option Nat → Nat → Nat
  | none, d => d
  | some t, d => if t = 0 then d else t

/-- Is `p` a prefix of `l` (character lists)? -/
def charsHasPre : List Char → List Char → Bool
  | [], _ => true
  | _ :: _, [] => false
  | a :: as, b :: bs => a = b && charsHasPre as bs

/-- Does `l` contain `p` as a contiguous run (character lists)? -/
def charsHasSub (p : List Char) : List Char → Bool
  | [] => charsHasPre p []
  | c :: t => charsHasPre p (c :: t) || charsHasSub p t

/-- JS `hay.includes(needle)`. -/
def strIncludes (hay needle : String) : Bool :=
  charsHasSub needle.toList hay.toList

/-- One stored cache entry (`CacheItem<T>` in cache.ts): the decoded
payload, the insertion timestamp and the expiry timestamp. -/
structure CacheItem where
  data : JSVal
  timestamp : Nat
  expiresAt : Nat
  deriving DecidableEq, Repr

/-- The underlying insertion-ordered map of the cache. -/
abbrev CacheMap := List (String × CacheItem)

/-- First-match lookup, as `Map.get`. -/
def mapLookup : CacheMap → String → Option CacheItem
  | [], _ => none
  | (k2, v) :: rest, k => if k2 = k then some v else mapLookup rest k

/-- `Map.set`: replace the entry for the key in place when present
(keeping its position), otherwise append at the end. -/
def mapSet : CacheMap → String → CacheItem → CacheMap
  | [], k, v => [(k, v)]
  | (k2, v2) :: rest, k, v =>
    if k2 = k then (k, v) :: rest else (k2, v2) :: mapSet rest k v

/-- `Map.delete`: drop the entries for the key. -/
def mapDelete (m : CacheMap) (k : String) : CacheMap :=
  m.filter (fun kv => kv.1 ≠ k)

/-- Keys of the map in iteration order. -/
def keysOf (m : CacheMap) : List String :=
  m.map (fun kv => kv.1)

/-- The `APICache` object of cache.ts: the map plus the construction-time
configuration. -/
structure APICache where
  cache : CacheMap
  maxSize : Nat
  defaultTTL : Nat
  deriving DecidableEq, Repr

namespace APICache

/-- The constructor `new APICache(options)`:
`maxSize = options.maxSize || 100`, `defaultTTL = options.ttl || 300000`
(5 minutes), starting from an empty map. -/
def create (ttlOpt maxSizeOpt : Option Nat) : APICache :=
  { cache := [], maxSize := jsOr maxSizeOpt 100, defaultTTL := jsOr ttlOpt 300000 }

/-- `generateKey(url, params)`: the url concatenated with the serialized
params (`JSON.stringify(params)` when params is truthy, else the empty
string); the serialized form is carried as an opaque string. -/
def generateKey (url : String) (params : Option String) : String :=
  url ++ (match params with | none => "" | some s => s)

/-- `evictExpired()`: remove every entry with `now > expiresAt`. -/
def evictExpired (c : APICache) (now : Nat) : APICache :=
  { c with cache := c.cache.filter (fun kv => decide (now ≤ kv.2.expiresAt)) }

/-- `evictLRU()`: when `size >= maxSize`, read the first key of the map
and delete it — but only when that key is truthy (`if (firstKey)`), so an
empty-string first key is never deleted. -/
def evictLRU (c : APICache) : APICache :=
  if c.cache.length ≥ c.maxSize then
    match c.cache with
    | [] => c
    | (k, v) :: rest => if k = "" then { c with cache := (k, v) :: rest } else { c with cache := rest }
  else c

/-- `get(url, params)`: sweep expired entries, look the key up, treat an
expired hit as a miss (deleting it), and on a live hit move the entry to
the end of the map (delete + re-insert) before returning its data.
Returns the result together with the updated cache state. -/
def get (c : APICache) (url : String) (params : Option String) (now : Nat) :
    Option JSVal × APICache :=
  let c1 := c.evictExpired now
  let key := generateKey url params
  match mapLookup c1.cache key with
  | none => (none, c1)
  | some item =>
    if now > item.expiresAt then
      (none, { c1 with cache := mapDelete c1.cache key })
    else
      (some item.data, { c1 with cache := mapSet (mapDelete c1.cache key) key item })

/-- `set(url, data, params, ttl)`: sweep expired entries, run the LRU
eviction, then insert the entry with `expiresAt = now + (ttl || defaultTTL)`. -/
def set (c : APICache) (url : String) (data : JSVal) (params : Option String)
    (ttl : Option Nat) (now : Nat) : APICache :=
  let c1 := (c.evictExpired now).evictLRU
  let key := generateKey url params
  let expiresAt := now + jsOr ttl c1.defaultTTL
  { c1 with cache := mapSet c1.cache key { data := data, timestamp := now, expiresAt := expiresAt } }

/-- `has(url, params)`: like `get` but with no full sweep and no
move-to-end; an expired hit is deleted and reported absent. -/
def has (c : APICache) (url : String) (params : Option String) (now : Nat) :
    Bool × APICache :=
  let key := generateKey url params
  match mapLookup c.cache key with
  | none => (false, c)
  | some item =>
    if now > item.expiresAt then
      (false, { c with cache := mapDelete c.cache key })
    else
      (true, c)

/-- `size()`: sweep expired entries, then count. -/
def size (c : APICache) (now : Nat) : Nat × APICache :=
  let c1 := c.evictExpired now
  (c1.cache.length, c1)

end APICache

/-- A network response for one attempt: either a 2xx response with a
decoded JSON body, or a non-ok response with its status and status text. -/
inductive NetResp where
  | ok : JSVal → NetResp
  | httpErr : Nat → String → NetResp
  deriving DecidableEq, Repr

/-- The message of the `Error` thrown by `cachedFetch` on a non-ok
response: `HTTP ${status}: ${statusText}`. -/
def httpMsg (status : Nat) (statusText : String) : String :=
  "HTTP " ++ toString status ++ ": " ++ statusText

deriving instance DecidableEq for Except

/-- The `cacheOptions` parameter object `{ ttl?, skip? }`; an absent
object is `⟨none, false⟩` (optional chaining yields undefined ⇒ falsy). -/
structure CacheOpts where
  ttl : Option Nat
  skip : Bool
  deriving DecidableEq, Repr

/-- Result of one `cachedFetch` call: the settled promise, the cache
state afterwards, the next unconsumed network-attempt index, and how
many network calls were made (0 or 1). -/
structure CFResult where
  outcome : Except String JSVal
  cache : APICache
  nextIdx : Nat
  calls : Nat
  deriving DecidableEq, Repr

/-- `cachedFetch(url, options, cacheOptions)` from cache.ts, with the
singleton `apiCache` passed as explicit state `st` and the network as
`net : Nat → NetResp` consumed at index `idx`:
* `skip` truthy: fetch directly, throw on non-ok, return the body —
  the cache is never touched;
* otherwise: `const cached = apiCache.get(url, options); if (cached)`
  return it (JS truthiness — a falsy cached value falls through);
* on fall-through: fetch, throw on non-ok, `apiCache.set(url, data,
  options, cacheOptions?.ttl)`, return the body. -/
def cachedFetch (url : String) (options : Option String) (copts : CacheOpts)
    (st : APICache) (now : Nat) (net : Nat → NetResp) (idx : Nat) : CFResult :=
  if copts.skip then
    match net idx with
    | .ok v => ⟨.ok v, st, idx + 1, 1⟩
    | .httpErr s t => ⟨.error (httpMsg s t), st, idx + 1, 1⟩
  else
    let g := st.get url options now
    match g.1 with
    | some v =>
      if jsTruthy v then ⟨.ok v, g.2, idx, 0⟩
      else
        match net idx with
        | .ok w => ⟨.ok w, g.2.set url w options copts.ttl now, idx + 1, 1⟩
        | .httpErr s t => ⟨.error (httpMsg s t), g.2, idx + 1, 1⟩
    | none =>
      match net idx with
      | .ok w => ⟨.ok w, g.2.set url w options copts.ttl now, idx + 1, 1⟩
      | .httpErr s t => ⟨.error (httpMsg s t), g.2, idx + 1, 1⟩

/-- The api module's base URL. -/
def BASE_URL : String := "https://api.themoviedb.org/3"

/-- The `TMDBError` message thrown when the API key is missing. -/
def configMsg : String :=
  "TMDB API key is not configured. Please check your environment variables."

/-- `JSON.stringify` of the request-options object built by `fetchTMDB`
(the `Authorization`/`Content-Type` headers), carried as an opaque
serialized string for cache-key purposes. -/
def tmdbOptions (token : String) : String :=
  "\x7b\"headers\":\x7b\"Authorization\":\"Bearer " ++ token ++
    "\",\"Content-Type\":\"application/json\"\x7d\x7d"

/-- Outcome of a `fetchTMDB` call: a resolved value, a rejection with a
`TMDBError` message, or `diverged` — the modelling fuel ran out while
the code was still retrying (the real code would still be looping). -/
inductive TOutcome where
  | ok : JSVal → TOutcome
  | err : String → TOutcome
  | diverged : TOutcome
  deriving DecidableEq, Repr

/-- Result of a `fetchTMDB` call: outcome, final cache state, next
network-attempt index, and the total number of network calls made. -/
structure TResult where
  outcome : TOutcome
  cache : APICache
  nextIdx : Nat
  calls : Nat
  deriving DecidableEq, Repr

/-- `fetchTMDB(endpoint, cacheOptions)` from the api module, with the
cache, clock and network explicit and `fuel` bounding the retry
recursion (the source has no such bound; `diverged` marks fuel
exhaustion):
* throw a `TMDBError` with `configMsg` when no API token is configured,
  before any cache or network interaction;
* otherwise call `cachedFetch` on `BASE_URL ++ endpoint` with the
  bearer-token options;
* on a rejection whose message includes `"429"`, wait 1000 ms and
  recursively re-invoke `fetchTMDB` with `{ ...cacheOptions, skip: true }`;
* on a rejection whose message includes `"HTTP"`, rethrow the message as
  a `TMDBError`; any other rejection is normalized to a `TMDBError`
  carrying the error's message. -/
def fetchTMDB (apiToken : Option String) (endpoint : String) :
    Nat → CacheOpts → APICache → Nat → (Nat → NetResp) → Nat → TResult
  | 0, _, st, _, _, idx => ⟨.diverged, st, idx, 0⟩
  | fuel + 1, copts, st, now, net, idx =>
    match apiToken with
    | none => ⟨.err configMsg, st, idx, 0⟩
    | some token =>
      let url := BASE_URL ++ endpoint
      let opts := some (tmdbOptions token)
      let r := cachedFetch url opts copts st now net idx
      match r.outcome with
      | .ok v => ⟨.ok v, r.cache, r.nextIdx, r.calls⟩
      | .error msg =>
        if strIncludes msg "429" then
          let r2 := fetchTMDB apiToken endpoint fuel ⟨copts.ttl, true⟩ r.cache (now + 1000) net r.nextIdx
          ⟨r2.outcome, r2.cache, r2.nextIdx, r.calls + r2.calls⟩
        else if strIncludes msg "HTTP" then
          ⟨.err msg, r.cache, r.nextIdx, r.calls⟩
        else
          ⟨.err msg, r.cache, r.nextIdx, r.calls⟩

/-- `value !== undefined && value !== null && value !== ''` — the filter
applied to each discovery parameter (strict inequality: the number 0 and
`false` are kept). -/
def keepParam (v : JSVal) : Bool :=
  !(v == JSVal.vundefined) && !(v == JSVal.vnull) && !(v == JSVal.vstr "")

/-- The query string built by `discoverTVShows`: each parameter whose
value passes `keepParam` is appended as `key=value.toString()`, in
object-entry order, joined with `&` (URLSearchParams percent-encoding is
the identity on the characters exercised by the claims). -/
def buildQueryString (params : List (String × JSVal)) : String :=
  String.intercalate "&"
    ((params.filter (fun kv => keepParam kv.2)).map
      (fun kv => kv.1 ++ "=" ++ jsToString kv.2))

/-- The endpoint built by `discoverTVShows`: `/discover/tv` plus `?` and
the query string when the latter is nonempty. -/
def discoverTVEndpoint (params : List (String × JSVal)) : String :=
  let qs := buildQueryString params
  "/discover/tv" ++ (if qs = "" then "" else "?" ++ qs)

/-- `discoverTVShows(params)`: build the endpoint and delegate to
`fetchTMDB` with a 10-minute ttl. -/
def discoverTVShows (apiToken : Option String) (params : List (String × JSVal))
    (fuel : Nat) (st : APICache) (now : Nat) (net : Nat → NetResp) (idx : Nat) : TResult :=
  fetchTMDB apiToken (discoverTVEndpoint params) fuel ⟨some 600000, false⟩ st now net idx

/-- One recorded `set` invocation (its arguments plus the clock value). -/
structure SetCall where
  url : String
  data : JSVal
  params : Option String
  ttl : Option Nat
  now : Nat
  deriving DecidableEq, Repr

/-- Apply one recorded `set` call to a cache state. -/
def applySet (c : APICache) (call : SetCall) : APICache :=
  c.set call.url call.data call.params call.ttl call.now

/-- Run a sequence of `set` calls against a cache state. -/
def runSets (c : APICache) (calls : List SetCall) : APICache :=
  calls.foldl applySet c

/-! ### Lemmas on the insertion-ordered map -/

@[simp] theorem mapLookup_nil (k : String) : mapLookup [] k = none := rfl

@[simp] theorem mapLookup_cons (k2 : String) (v2 : CacheItem) (tl : CacheMap) (k : String) :
    mapLookup ((k2, v2) :: tl) k = if k2 = k then some v2 else mapLookup tl k := rfl

@[simp] theorem mapSet_nil (k : String) (v : CacheItem) : mapSet [] k v = [(k, v)] := rfl

@[simp] theorem mapSet_cons (k2 : String) (v2 : CacheItem) (tl : CacheMap) (k : String) (v : CacheItem) :
    mapSet ((k2, v2) :: tl) k v =
      if k2 = k then (k, v) :: tl else (k2, v2) :: mapSet tl k v := rfl

@[simp] theorem keysOf_nil : keysOf [] = [] := rfl

@[simp] theorem keysOf_cons (k2 : String) (v2 : CacheItem) (tl : CacheMap) :
    keysOf ((k2, v2) :: tl) = k2 :: keysOf tl := rfl

theorem mapLookup_mapSet_self (m : CacheMap) (k : String) (v : CacheItem) :
    mapLookup (mapSet m k v) k = some v := by
  induction m with
  | nil => simp
  | cons hd tl ih =>
    obtain ⟨k2, v2⟩ := hd
    by_cases h : k2 = k
    · simp [h]
    · simp [h, ih]

theorem mapLookup_filter_keep {m : CacheMap} {k : String} {v : CacheItem}
    {p : String × CacheItem → Bool}
    (h1 : mapLookup m k = some v) (h2 : p (k, v) = true) :
    mapLookup (m.filter p) k = some v := by
  induction m with
  | nil => simp at h1
  | cons hd tl ih =>
    obtain ⟨k2, v2⟩ := hd
    by_cases hk : k2 = k
    · subst hk
      rw [mapLookup_cons, if_pos rfl] at h1
      injection h1 with h1
      subst h1
      simp [List.filter_cons, h2]
    · rw [mapLookup_cons, if_neg hk] at h1
      rw [List.filter_cons]
      by_cases hp : p (k2, v2)
      · simp [hp, hk, ih h1]
      · simp [hp, ih h1]

theorem mem_keysOf_iff {m : CacheMap} {k : String} :
    k ∈ keysOf m ↔ ∃ v, (k, v) ∈ m := by
  constructor
  · intro h
    rcases List.mem_map.mp h with ⟨⟨a, b⟩, hab, hfa⟩
    exact ⟨b, by simpa [← hfa] using hab⟩
  · rintro ⟨v, hv⟩
    exact List.mem_map.mpr ⟨(k, v), hv, rfl⟩

theorem mapLookup_eq_none_of_not_mem {m : CacheMap} {k : String}
    (h : k ∉ keysOf m) : mapLookup m k = none := by
  induction m with
  | nil => rfl
  | cons hd tl ih =>
    obtain ⟨k2, v2⟩ := hd
    simp only [keysOf_cons, List.mem_cons] at h
    push_neg at h
    rw [mapLookup_cons, if_neg (fun hh => h.1 hh.symm)]
    exact ih h.2

theorem keysOf_filter_subset {m : CacheMap} {p : String × CacheItem → Bool} :
    keysOf (m.filter p) ⊆ keysOf m := by
  unfold keysOf
  exact ((List.filter_sublist m).map _).subset

theorem keysOf_filter_nodup {m : CacheMap} {p : String × CacheItem → Bool}
    (h : (keysOf m).Nodup) : (keysOf (m.filter p)).Nodup := by
  unfold keysOf at h ⊢
  exact ((List.filter_sublist m).map _).nodup h

theorem mapLookup_filter_drop {m : CacheMap} {k : String} {v : CacheItem}
    {p : String × CacheItem → Bool}
    (hnd : (keysOf m).Nodup) (h1 : mapLookup m k = some v) (h2 : p (k, v) = false) :
    mapLookup (m.filter p) k = none := by
  induction m with
  | nil => simp at h1
  | cons hd tl ih =>
    obtain ⟨k2, v2⟩ := hd
    simp only [keysOf_cons, List.nodup_cons] at hnd
    by_cases hk : k2 = k
    · subst hk
      rw [mapLookup_cons, if_pos rfl] at h1
      injection h1 with h1
      subst h1
      rw [List.filter_cons, if_neg (by simp [h2])]
      exact mapLookup_eq_none_of_not_mem (fun hm => hnd.1 (keysOf_filter_subset hm))
    · rw [mapLookup_cons, if_neg hk] at h1
      rw [List.filter_cons]
      by_cases hp : p (k2, v2)
      · simp [hp, hk, ih hnd.2 h1]
      · simp [hp, ih hnd.2 h1]

theorem length_mapSet_le (m : CacheMap) (k : String) (v : CacheItem) :
    (mapSet m k v).length ≤ m.length + 1 := by
  induction m with
  | nil => simp
  | cons hd tl ih =>
    obtain ⟨k2, v2⟩ := hd
    by_cases h : k2 = k
    · simp [h]
    · simp only [mapSet_cons, if_neg h, List.length_cons]
      omega

theorem keysOf_mapSet_of_mem {m : CacheMap} {k : String} (v : CacheItem)
    (h : k ∈ keysOf m) : keysOf (mapSet m k v) = keysOf m := by
  induction m with
  | nil => simp at h
  | cons hd tl ih =>
    obtain ⟨k2, v2⟩ := hd
    by_cases hk : k2 = k
    · simp [hk]
    · simp only [keysOf_cons, List.mem_cons] at h
      rcases h with h | h
      · exact absurd h.symm hk
      · rw [mapSet_cons, if_neg hk, keysOf_cons, keysOf_cons, ih h]

theorem length_mapSet_of_mem {m : CacheMap} {k : String} (v : CacheItem)
    (h : k ∈ keysOf m) : (mapSet m k v).length = m.length := by
  induction m with
  | nil => simp at h
  | cons hd tl ih =>
    obtain ⟨k2, v2⟩ := hd
    by_cases hk : k2 = k
    · simp [hk]
    · simp only [keysOf_cons, List.mem_cons] at h
      rcases h with h | h
      · exact absurd h.symm hk
      · rw [mapSet_cons, if_neg hk, List.length_cons, List.length_cons, ih h]

theorem mapSet_eq_append_of_not_mem {m : CacheMap} {k : String} (v : CacheItem)
    (h : k ∉ keysOf m) : mapSet m k v = m ++ [(k, v)] := by
  induction m with
  | nil => simp
  | cons hd tl ih =>
    obtain ⟨k2, v2⟩ := hd
    simp only [keysOf_cons, List.mem_cons] at h
    push_neg at h
    rw [mapSet_cons, if_neg (fun hh => h.1 hh.symm), List.cons_append, ih h.2]

theorem mem_keysOf_mapSet {m : CacheMap} {a k : String} {v : CacheItem}
    (h : a ∈ keysOf (mapSet m k v)) : a ∈ keysOf m ∨ a = k := by
  induction m with
  | nil => simpa using h
  | cons hd tl ih =>
    obtain ⟨k2, v2⟩ := hd
    by_cases hk : k2 = k
    · subst hk
      rw [mapSet_cons, if_pos rfl, keysOf_cons] at h
      rw [keysOf_cons]
      rcases List.mem_cons.mp h with h | h
      · exact Or.inr h
      · exact Or.inl (List.mem_cons.mpr (Or.inr h))
    · rw [mapSet_cons, if_neg hk, keysOf_cons] at h
      rw [keysOf_cons]
      rcases List.mem_cons.mp h with h | h
      · exact Or.inl (List.mem_cons.mpr (Or.inl h))
      · rcases ih h with h2 | h2
        · exact Or.inl (List.mem_cons.mpr (Or.inr h2))
        · exact Or.inr h2

theorem keysOf_mapSet_nodup {m : CacheMap} {k : String} (v : CacheItem)
    (h : (keysOf m).Nodup) : (keysOf (mapSet m k v)).Nodup := by
  by_cases hm : k ∈ keysOf m
  · rw [keysOf_mapSet_of_mem v hm]; exact h
  · rw [mapSet_eq_append_of_not_mem v hm]
    have : keysOf (m ++ [(k, v)]) = keysOf m ++ [k] := by
      simp [keysOf]
    rw [this, List.nodup_append]
    exact ⟨h, List.nodup_singleton k, by simpa using hm⟩

theorem not_mem_keysOf_mapDelete (m : CacheMap) (k : String) :
    k ∉ keysOf (mapDelete m k) := by
  intro h
  rcases mem_keysOf_iff.mp h with ⟨v, hv⟩
  rw [mapDelete, List.mem_filter] at hv
  simp at hv

/-! ### Lemmas on the cache operations -/

theorem jsOr_pos {o : Option Nat} {d : Nat} (hd : 0 < d) : 0 < jsOr o d := by
  cases o with
  | none => exact hd
  | some t =>
    by_cases h : t = 0
    · simpa [jsOr, h] using hd
    · simpa [jsOr, h] using Nat.pos_of_ne_zero h

@[simp] theorem evictExpired_maxSize (c : APICache) (now : Nat) :
    (c.evictExpired now).maxSize = c.maxSize := rfl

@[simp] theorem evictExpired_defaultTTL (c : APICache) (now : Nat) :
    (c.evictExpired now).defaultTTL = c.defaultTTL := rfl

@[simp] theorem evictExpired_cache (c : APICache) (now : Nat) :
    (c.evictExpired now).cache = c.cache.filter (fun kv => decide (now ≤ kv.2.expiresAt)) := rfl

@[simp] theorem evictLRU_maxSize (c : APICache) : (c.evictLRU).maxSize = c.maxSize := by
  unfold APICache.evictLRU
  split
  · match hc : c.cache with
    | [] => rfl
    | (k, v) :: rest =>
      by_cases hk : k = ""
      · simp [hk]
      · simp [hk]
  · rfl

@[simp] theorem evictLRU_defaultTTL (c : APICache) : (c.evictLRU).defaultTTL = c.defaultTTL := by
  unfold APICache.evictLRU
  split
  · match hc : c.cache with
    | [] => rfl
    | (k, v) :: rest =>
      by_cases hk : k = ""
      · simp [hk]
      · simp [hk]
  · rfl

theorem evictExpired_eq_self {c : APICache} {now : Nat}
    (h : ∀ kv ∈ c.cache, now ≤ kv.2.expiresAt) : c.evictExpired now = c := by
  unfold APICache.evictExpired
  have : c.cache.filter (fun kv => decide (now ≤ kv.2.expiresAt)) = c.cache :=
    List.filter_eq_self.mpr (fun a ha => by simpa using h a ha)
  rw [this]

theorem evictLRU_cache_of_head {c : APICache} {k0 : String} {i0 : CacheItem} {rest : CacheMap}
    (hc : c.cache = (k0, i0) :: rest) (hk0 : k0 ≠ "")
    (hge : c.maxSize ≤ c.cache.length) : (c.evictLRU).cache = rest := by
  unfold APICache.evictLRU
  rw [if_pos hge, hc]
  simp [hk0]

theorem evictLRU_eq_self_of_lt {c : APICache} (h : c.cache.length < c.maxSize) :
    c.evictLRU = c := by
  unfold APICache.evictLRU
  rw [if_neg (by omega)]

theorem evictLRU_cache_sublist (c : APICache) : (c.evictLRU).cache.Sublist c.cache := by
  unfold APICache.evictLRU
  split
  · cases hc : c.cache with
    | nil => simp [hc]
    | cons hd rest =>
      obtain ⟨k, v⟩ := hd
      by_cases hk : k = ""
      · simp [hk]
      · simp [hk, List.sublist_cons_self]
  · simp

theorem evictLRU_keys_subset (c : APICache) :
    keysOf (c.evictLRU).cache ⊆ keysOf c.cache := by
  unfold keysOf
  exact ((evictLRU_cache_sublist c).map _).subset

theorem evictLRU_length_lt {c : APICache} (h3 : 0 < c.maxSize)
    (h2 : "" ∉ keysOf c.cache) (h1 : c.cache.length ≤ c.maxSize) :
    (c.evictLRU).cache.length < c.maxSize := by
  by_cases hge : c.maxSize ≤ c.cache.length
  · match hc : c.cache with
    | [] =>
      rw [hc] at hge
      simp at hge
      omega
    | (k0, i0) :: rest =>
      have hk0 : k0 ≠ "" := by
        intro hk
        exact h2 (by rw [hc, hk]; exact List.mem_cons_self _ _)
      rw [evictLRU_cache_of_head hc hk0 hge]
      have : c.cache.length = rest.length + 1 := by rw [hc]; rfl
      omega
  · rw [evictLRU_eq_self_of_lt (by omega)]
    omega

/-- The cache map after `set`, written out. -/
theorem set_cache_eq (c : APICache) (url : String) (v : JSVal) (p : Option String)
    (ttl : Option Nat) (now : Nat) :
    (c.set url v p ttl now).cache =
      mapSet ((c.evictExpired now).evictLRU).cache (APICache.generateKey url p)
        { data := v, timestamp := now, expiresAt := now + jsOr ttl c.defaultTTL } := by
  simp [APICache.set]

@[simp] theorem set_maxSize (c : APICache) (url : String) (v : JSVal) (p : Option String)
    (ttl : Option Nat) (now : Nat) : (c.set url v p ttl now).maxSize = c.maxSize := by
  simp [APICache.set]

@[simp] theorem set_defaultTTL (c : APICache) (url : String) (v : JSVal) (p : Option String)
    (ttl : Option Nat) (now : Nat) : (c.set url v p ttl now).defaultTTL = c.defaultTTL := by
  simp [APICache.set]

/-- After `set`, the inserted entry is found under its key. -/
theorem mapLookup_set_self (c : APICache) (url : String) (v : JSVal) (p : Option String)
    (ttl : Option Nat) (now : Nat) :
    mapLookup (c.set url v p ttl now).cache (APICache.generateKey url p) =
      some { data := v, timestamp := now, expiresAt := now + jsOr ttl c.defaultTTL } := by
  rw [set_cache_eq]
  exact mapLookup_mapSet_self _ _ _

/-- `get` on a live-entry hit: the first component is the stored data. -/
theorem get_fst_of_hit {c : APICache} {url : String} {p : Option String} {now : Nat}
    {item : CacheItem}
    (h1 : mapLookup c.cache (APICache.generateKey url p) = some item)
    (h2 : now ≤ item.expiresAt) :
    (c.get url p now).1 = some item.data := by
  simp only [APICache.get]
  have hl : mapLookup ((c.evictExpired now).cache) (APICache.generateKey url p) = some item := by
    rw [evictExpired_cache]
    exact mapLookup_filter_keep h1 (by simpa using h2)
  rw [hl]
  simp only [gt_iff_lt]
  rw [if_neg (by omega)]

/-- `get` on a live-entry hit: the entry is re-inserted at the end. -/
theorem get_snd_of_hit {c : APICache} {url : String} {p : Option String} {now : Nat}
    {item : CacheItem}
    (h1 : mapLookup c.cache (APICache.generateKey url p) = some item)
    (h2 : now ≤ item.expiresAt) :
    ((c.get url p now).2).cache =
      mapDelete ((c.evictExpired now).cache) (APICache.generateKey url p)
        ++ [(APICache.generateKey url p, item)] := by
  simp only [APICache.get]
  have hl : mapLookup ((c.evictExpired now).cache) (APICache.generateKey url p) = some item := by
    rw [evictExpired_cache]
    exact mapLookup_filter_keep h1 (by simpa using h2)
  rw [hl]
  simp only [gt_iff_lt]
  rw [if_neg (by omega)]
  exact mapSet_eq_append_of_not_mem _ (not_mem_keysOf_mapDelete _ _)

/-- `get` when the key is not live in the cache map. -/
theorem get_fst_of_none {c : APICache} {url : String} {p : Option String} {now : Nat}
    (h : mapLookup ((c.evictExpired now).cache) (APICache.generateKey url p) = none) :
    (c.get url p now).1 = none := by
  simp only [APICache.get]
  rw [h]

theorem evictLRU_keys_nodup {c : APICache} (h : (keysOf c.cache).Nodup) :
    (keysOf (c.evictLRU).cache).Nodup := by
  unfold keysOf at h ⊢
  exact ((evictLRU_cache_sublist c).map _).nodup h

theorem set_keys_nodup {c : APICache} (url : String) (v : JSVal) (p : Option String)
    (ttl : Option Nat) (now : Nat) (h : (keysOf c.cache).Nodup) :
    (keysOf (c.set url v p ttl now).cache).Nodup := by
  rw [set_cache_eq]
  apply keysOf_mapSet_nodup
  apply evictLRU_keys_nodup
  rw [evictExpired_cache]
  exact keysOf_filter_nodup h

theorem has_fst_of_live {c : APICache} {url : String} {p : Option String} {now : Nat}
    {item : CacheItem}
    (h1 : mapLookup c.cache (APICache.generateKey url p) = some item)
    (h2 : now ≤ item.expiresAt) : (c.has url p now).1 = true := by
  simp only [APICache.has]
  rw [h1]
  simp only [gt_iff_lt]
  rw [if_neg (by omega)]

theorem has_fst_of_expired {c : APICache} {url : String} {p : Option String} {now : Nat}
    {item : CacheItem}
    (h1 : mapLookup c.cache (APICache.generateKey url p) = some item)
    (h2 : item.expiresAt < now) : (c.has url p now).1 = false := by
  simp only [APICache.has]
  rw [h1]
  simp only [gt_iff_lt]
  rw [if_pos (by omega)]

@[simp] theorem runSets_nil (c : APICache) : runSets c [] = c := rfl

@[simp] theorem runSets_cons (c : APICache) (call : SetCall) (rest : List SetCall) :
    runSets c (call :: rest) = runSets (applySet c call) rest := rfl

/-- A single `set` with a nonempty key preserves the capacity bound and
the absence of the empty-string key. -/
theorem set_preserves_inv {c : APICache} (url : String) (v : JSVal) (p : Option String)
    (ttl : Option Nat) (now : Nat)
    (h3 : 0 < c.maxSize) (h1 : c.cache.length ≤ c.maxSize) (h2 : "" ∉ keysOf c.cache)
    (h4 : APICache.generateKey url p ≠ "") :
    (c.set url v p ttl now).cache.length ≤ c.maxSize ∧
      "" ∉ keysOf (c.set url v p ttl now).cache := by
  have he_len : (c.evictExpired now).cache.length ≤ c.cache.length := by
    rw [evictExpired_cache]
    exact List.length_filter_le _ _
  have he_keys : "" ∉ keysOf (c.evictExpired now).cache := by
    intro hm
    rw [evictExpired_cache] at hm
    exact h2 (keysOf_filter_subset hm)
  have hL : ((c.evictExpired now).evictLRU).cache.length < c.maxSize := by
    have := evictLRU_length_lt (c := c.evictExpired now)
      (by rw [evictExpired_maxSize]; exact h3) he_keys
      (by rw [evictExpired_maxSize]; omega)
    rwa [evictExpired_maxSize] at this
  have hkeysL : "" ∉ keysOf ((c.evictExpired now).evictLRU).cache := by
    intro hm
    exact he_keys (evictLRU_keys_subset _ hm)
  constructor
  · rw [set_cache_eq]
    have := length_mapSet_le ((c.evictExpired now).evictLRU).cache
      (APICache.generateKey url p)
      { data := v, timestamp := now, expiresAt := now + jsOr ttl c.defaultTTL }
    omega
  · rw [set_cache_eq]
    intro hm
    rcases mem_keysOf_mapSet hm with hm2 | hm2
    · exact hkeysL hm2
    · exact h4 hm2.symm

/-- Any run of `set` calls with nonempty keys preserves the capacity
bound, the absence of the empty key and the configuration. -/
theorem runSets_inv (calls : List SetCall) (c : APICache)
    (h3 : 0 < c.maxSize) (h1 : c.cache.length ≤ c.maxSize) (h2 : "" ∉ keysOf c.cache)
    (hks : ∀ call ∈ calls, APICache.generateKey call.url call.params ≠ "") :
    (runSets c calls).cache.length ≤ c.maxSize ∧
      "" ∉ keysOf (runSets c calls).cache ∧ (runSets c calls).maxSize = c.maxSize := by
  induction calls generalizing c with
  | nil => exact ⟨h1, h2, rfl⟩
  | cons call rest ih =>
    rw [runSets_cons]
    have hcall := set_preserves_inv (c := c) call.url call.data call.params call.ttl call.now
      h3 h1 h2 (hks call (List.mem_cons_self _ _))
    have hms : (applySet c call).maxSize = c.maxSize := set_maxSize _ _ _ _ _ _
    have := ih (applySet c call) (by rw [hms]; exact h3) (by rw [hms]; exact hcall.1) hcall.2
      (fun call2 hm => hks call2 (List.mem_cons.mpr (Or.inr hm)))
    rw [hms] at this
    exact this

/-! ### Claim theorems -/

/-- C2, counterexample: the claim says a ttl of 0 makes the entry
immediately stale, with `expiresAt = createdAt + ttl`.  In the code
`ttl || this.defaultTTL` treats the ttl 0 as falsy: after
`set(k, v, ttl = 0)` at t = 0 on a default cache the stored entry has
`expiresAt = 300000` (not 0), and `get(k)` at t = 1 — strictly after the
insertion instant — still returns the value. -/
theorem claim_C2_counterexample :
    mapLookup (((APICache.create none none).set "k" (.vstr "A") none (some 0) 0).cache) "k"
        = some { data := .vstr "A", timestamp := 0, expiresAt := 300000 } ∧
      ((((APICache.create none none).set "k" (.vstr "A") none (some 0) 0)).get "k" none 1).1
        = some (.vstr "A") := by
  constructor
  · rfl
  · rfl

/-- C2, amended: an entry stored by `set` has
`expiresAt = createdAt + (ttl || defaultTTL)`, which equals
`createdAt + ttl` for every nonzero ttl; `expiresAt > createdAt` always
holds when `defaultTTL` is positive (which the constructor guarantees),
but a ttl of 0 is NOT immediately stale — it falls back to `defaultTTL`,
so the entry is still returned by `get` at any time up to
`createdAt + defaultTTL`. -/
theorem claim_C2_amended (c : APICache) (url : String) (v : JSVal) (p : Option String)
    (ttl : Option Nat) (t : Nat) (hd : 0 < c.defaultTTL) :
    mapLookup (c.set url v p ttl t).cache (APICache.generateKey url p)
        = some { data := v, timestamp := t, expiresAt := t + jsOr ttl c.defaultTTL } ∧
      t < t + jsOr ttl c.defaultTTL ∧
      (∀ n : Nat, n ≠ 0 → jsOr (some n) c.defaultTTL = n) ∧
      jsOr (some 0) c.defaultTTL = c.defaultTTL ∧
      (∀ ttlOpt msOpt : Option Nat, 0 < (APICache.create ttlOpt msOpt).defaultTTL) ∧
      (∀ now2 : Nat, now2 ≤ t + c.defaultTTL →
        ((c.set url v p (some 0) t).get url p now2).1 = some v) := by
  refine ⟨mapLookup_set_self c url v p ttl t, ?_, ?_, ?_, ?_, ?_⟩
  · have := jsOr_pos (o := ttl) hd
    omega
  · intro n hn
    simp [jsOr, hn]
  · simp [jsOr]
  · intro ttlOpt msOpt
    exact jsOr_pos (by norm_num)
  · intro now2 h
    have h1 := mapLookup_set_self c url v p (some 0) t
    have hj : jsOr (some 0) c.defaultTTL = c.defaultTTL := by simp [jsOr]
    rw [hj] at h1
    exact get_fst_of_hit h1 (by simpa using h)

/-- C2, witness for the amended claim at ttl = some 0 on a
constructor-built cache. -/
theorem claim_C2_witness :
    0 < (APICache.create none none).defaultTTL ∧
      (((APICache.create none none).set "k" (.vstr "A") none (some 0) 0).get
          "k" none 300000).1 = some (.vstr "A") :=
  ⟨by decide,
    (claim_C2_amended (APICache.create none none) "k" (.vstr "A") none (some 0) 0
      (by decide)).2.2.2.2.2 300000 (by decide)⟩

/-- C4: for an entry stored with a nonzero ttl at time t against a cache
with distinct keys (every reachable JS-Map state), `get` returns the
stored value at every `now ≤ t + ttl` and absent at every
`now > t + ttl` (= `expiresAt`), and the same holds for `has`; an
expired entry is never retrievable. -/
theorem claim_C4_ttl_expiration (c : APICache) (url : String) (v : JSVal)
    (p : Option String) (ttl t : Nat)
    (hnd : (keysOf c.cache).Nodup) (httl : 0 < ttl) :
    (∀ now2 : Nat, now2 ≤ t + ttl →
        ((c.set url v p (some ttl) t).get url p now2).1 = some v ∧
        ((c.set url v p (some ttl) t).has url p now2).1 = true) ∧
      (∀ now2 : Nat, t + ttl < now2 →
        ((c.set url v p (some ttl) t).get url p now2).1 = none ∧
        ((c.set url v p (some ttl) t).has url p now2).1 = false) := by
  have hj : jsOr (some ttl) c.defaultTTL = ttl := by
    simp [jsOr]
    omega
  have h1 := mapLookup_set_self c url v p (some ttl) t
  rw [hj] at h1
  have hnd2 : (keysOf (c.set url v p (some ttl) t).cache).Nodup :=
    set_keys_nodup url v p (some ttl) t hnd
  constructor
  · intro now2 h
    exact ⟨get_fst_of_hit h1 (by simpa using h), has_fst_of_live h1 (by simpa using h)⟩
  · intro now2 h
    constructor
    · apply get_fst_of_none
      rw [evictExpired_cache]
      exact mapLookup_filter_drop hnd2 h1 (by simp; omega)
    · exact has_fst_of_expired h1 (by simpa using h)

/-- C4, witness: `set(k, v, ttl=1000)` at t = 0 on an empty default
cache; `get` at 999 returns v, `get` at 1001 returns absent. -/
theorem claim_C4_witness :
    (((APICache.create none none).set "k" (.vstr "V") none (some 1000) 0).get
          "k" none 999).1 = some (.vstr "V") ∧
      (((APICache.create none none).set "k" (.vstr "V") none (some 1000) 0).get
          "k" none 1001).1 = none :=
  ⟨((claim_C4_ttl_expiration (APICache.create none none) "k" (.vstr "V") none 1000 0
      (by decide) (by decide)).1 999 (by decide)).1,
    ((claim_C4_ttl_expiration (APICache.create none none) "k" (.vstr "V") none 1000 0
      (by decide) (by decide)).2 1001 (by decide)).1⟩

/-- Inversion of a `get` hit: some live entry was found under the key. -/
theorem get_hit_inversion {c : APICache} {url : String} {p : Option String} {now : Nat}
    {v : JSVal} (h : (c.get url p now).1 = some v) :
    ∃ item : CacheItem,
      mapLookup ((c.evictExpired now).cache) (APICache.generateKey url p) = some item ∧
        now ≤ item.expiresAt ∧ item.data = v := by
  simp only [APICache.get] at h
  split at h
  · exact absurd h (by simp)
  · next item heq =>
    split at h
    · exact absurd h (by simp)
    · next hexp =>
      refine ⟨item, heq, by omega, ?_⟩
      injection h

/-- `get` on a hit already visible in the swept map: the entry is
re-inserted at the end. -/
theorem get_snd_of_hit_filtered {c : APICache} {url : String} {p : Option String}
    {now : Nat} {item : CacheItem}
    (h1 : mapLookup ((c.evictExpired now).cache) (APICache.generateKey url p) = some item)
    (h2 : now ≤ item.expiresAt) :
    ((c.get url p now).2).cache =
      mapDelete ((c.evictExpired now).cache) (APICache.generateKey url p)
        ++ [(APICache.generateKey url p, item)] := by
  simp only [APICache.get]
  rw [h1]
  simp only [gt_iff_lt]
  rw [if_neg (by omega)]
  exact mapSet_eq_append_of_not_mem _ (not_mem_keysOf_mapDelete _ _)

/-- C6: on every cache hit, `get` re-inserts the hit entry at the end of
the tracked order (the last key of the resulting map is the hit key), so
a read refreshes recency; concretely, with maxSize = 2 the sequence
`set(a); set(b); get(a); set(c)` evicts `b`, not `a`. -/
theorem claim_C6_read_refreshes_recency :
    (∀ (c : APICache) (url : String) (p : Option String) (now : Nat) (v : JSVal),
        (c.get url p now).1 = some v →
        (keysOf ((c.get url p now).2).cache).getLast? =
          some (APICache.generateKey url p)) ∧
      keysOf (((((((APICache.create none (some 2)).set "a" (.vstr "A") none none 0).set
            "b" (.vstr "B") none none 0).get "a" none 0).2).set
            "c" (.vstr "C") none none 0).cache) = ["a", "c"] := by
  constructor
  · intro c url p now v h
    obtain ⟨item, heq, hle, hdv⟩ := get_hit_inversion h
    rw [get_snd_of_hit_filtered heq hle]
    have hk : keysOf (mapDelete ((c.evictExpired now).cache) (APICache.generateKey url p)
          ++ [(APICache.generateKey url p, item)]) =
        keysOf (mapDelete ((c.evictExpired now).cache) (APICache.generateKey url p))
          ++ [APICache.generateKey url p] := by
      simp [keysOf]
    rw [hk, List.getLast?_concat]
  · decide

/-- C6, witness instantiating the general part at a concrete hit. -/
theorem claim_C6_witness :
    (keysOf ((((APICache.create none none).set "a" (.vstr "A") none none 0).get
        "a" none 5).2).cache).getLast? = some "a" :=
  claim_C6_read_refreshes_recency.1
    ((APICache.create none none).set "a" (.vstr "A") none none 0) "a" none 5
    (.vstr "A") (by decide)

/-- C3, counterexample: the claim says a cached, non-expired value is
returned with no network call regardless of the stored value, including
0, false, the empty string or null.  The code tests the cached value
with JS truthiness (`if (cached)`), so a cached 0 is treated as a miss:
with `{ data: 0 }` freshly stored under the key, `cachedFetch` still
performs a network call (calls = 1) and returns the network's value. -/
theorem claim_C3_counterexample :
    mapLookup ((APICache.create none none).set "u" (.vnum 0) none none 0).cache "u"
        = some { data := .vnum 0, timestamp := 0, expiresAt := 300000 } ∧
      (cachedFetch "u" none ⟨none, false⟩
          ((APICache.create none none).set "u" (.vnum 0) none none 0) 0
          (fun _ => NetResp.ok (.vnum 7)) 0).calls = 1 ∧
      (cachedFetch "u" none ⟨none, false⟩
          ((APICache.create none none).set "u" (.vnum 0) none none 0) 0
          (fun _ => NetResp.ok (.vnum 7)) 0).outcome = .ok (.vnum 7) := by
  refine ⟨rfl, rfl, rfl⟩

/-- C3, amended: if the cache holds a non-expired entry under the
derived key and the stored value is truthy, `cachedFetch` without skip
returns the cached value immediately with no network call; falsy decoded
values (0, false, the empty string, null) are treated as misses by
`if (cached)` and do trigger a network call. -/
theorem claim_C3_amended (url : String) (options : Option String) (ttl : Option Nat)
    (st : APICache) (now : Nat) (net : Nat → NetResp) (idx : Nat) (item : CacheItem)
    (h1 : mapLookup st.cache (APICache.generateKey url options) = some item)
    (h2 : now ≤ item.expiresAt) (h3 : jsTruthy item.data = true) :
    cachedFetch url options ⟨ttl, false⟩ st now net idx =
      { outcome := .ok item.data, cache := (st.get url options now).2,
        nextIdx := idx, calls := 0 } := by
  have hget : (st.get url options now).1 = some item.data := get_fst_of_hit h1 h2
  simp only [cachedFetch]
  rw [hget]
  simp [h3]

/-- C3, witness for the amended claim with a truthy cached value. -/
theorem claim_C3_witness :
    cachedFetch "u" none ⟨none, false⟩
        ((APICache.create none none).set "u" (.vstr "A") none none 0) 0
        (fun _ => NetResp.ok (.vstr "B")) 0 =
      { outcome := .ok (.vstr "A"),
        cache := ((((APICache.create none none).set "u" (.vstr "A") none none 0)).get
          "u" none 0).2,
        nextIdx := 0, calls := 0 } :=
  claim_C3_amended "u" none none
    ((APICache.create none none).set "u" (.vstr "A") none none 0) 0
    (fun _ => NetResp.ok (.vstr "B")) 0
    { data := .vstr "A", timestamp := 0, expiresAt := 300000 }
    (by decide) (by decide) (by decide)

/-- C7: with `skip` true, `cachedFetch` never consults the cache — the
cache state after the call is exactly the state before it (no read
side-effects and no write of the network result), one network call is
made, and the network's response is returned as-is: a success body is
returned even when a fresh entry exists, and a non-ok response raises
the HTTP error. -/
theorem claim_C7_skip_bypasses_cache (url : String) (options : Option String)
    (ttl : Option Nat) (st : APICache) (now : Nat) (net : Nat → NetResp) (idx : Nat) :
    (cachedFetch url options ⟨ttl, true⟩ st now net idx).cache = st ∧
      (cachedFetch url options ⟨ttl, true⟩ st now net idx).calls = 1 ∧
      (cachedFetch url options ⟨ttl, true⟩ st now net idx).nextIdx = idx + 1 ∧
      (∀ v : JSVal, net idx = NetResp.ok v →
        (cachedFetch url options ⟨ttl, true⟩ st now net idx).outcome = .ok v) ∧
      (∀ (s : Nat) (t2 : String), net idx = NetResp.httpErr s t2 →
        (cachedFetch url options ⟨ttl, true⟩ st now net idx).outcome =
          .error (httpMsg s t2)) := by
  cases hn : net idx with
  | ok v =>
    refine ⟨?_, ?_, ?_, ?_, ?_⟩ <;> simp [cachedFetch, hn]
  | httpErr s t2 =>
    refine ⟨?_, ?_, ?_, ?_, ?_⟩ <;> simp [cachedFetch, hn]

/-- C7, witness: the cache is seeded with value A under the key; a skip
call against a network returning B yields B, not A, and leaves the
seeded entry (the whole cache state) untouched. -/
theorem claim_C7_witness :
    (cachedFetch "u" none ⟨none, true⟩
          ((APICache.create none none).set "u" (.vstr "A") none none 0) 0
          (fun _ => NetResp.ok (.vstr "B")) 0).outcome = .ok (.vstr "B") ∧
      (cachedFetch "u" none ⟨none, true⟩
          ((APICache.create none none).set "u" (.vstr "A") none none 0) 0
          (fun _ => NetResp.ok (.vstr "B")) 0).cache =
        (APICache.create none none).set "u" (.vstr "A") none none 0 :=
  ⟨(claim_C7_skip_bypasses_cache "u" none none
      ((APICache.create none none).set "u" (.vstr "A") none none 0) 0
      (fun _ => NetResp.ok (.vstr "B")) 0).2.2.2.1 (.vstr "B") rfl,
    (claim_C7_skip_bypasses_cache "u" none none
      ((APICache.create none none).set "u" (.vstr "A") none none 0) 0
      (fun _ => NetResp.ok (.vstr "B")) 0).1⟩

/-- C5, counterexample: the claim says the entry count never exceeds
maxSize after any `set`.  `evictLRU` only deletes the first key when it
is truthy (`if (firstKey)`), so with maxSize = 1, `set("")` followed by
`set("x")` leaves 2 entries: the empty-string key is never evicted and
the capacity bound is broken. -/
theorem claim_C5_counterexample :
    (APICache.create none (some 1)).maxSize = 1 ∧
      (((APICache.create none (some 1)).set "" (.vstr "A") none none 0).set
          "x" (.vstr "B") none none 0).cache.length = 2 := by
  refine ⟨rfl, rfl⟩

/-- C5, amended: for sequences of `set` calls whose derived keys are all
nonempty (in particular whenever the url is nonempty), the entry count
never exceeds maxSize after each call; and a `set` issued when the
(unexpired) count is at or above maxSize with a nonempty first key
evicts exactly that first entry before inserting; concretely, with
maxSize = 2, `set(a); set(b); set(c)` leaves exactly the entries `b`
and `c` — `a` is evicted. -/
theorem claim_C5_capacity_bound :
    (∀ (ttlOpt msOpt : Option Nat) (calls : List SetCall),
        (∀ call ∈ calls, APICache.generateKey call.url call.params ≠ "") →
        ∀ n : Nat,
          (runSets (APICache.create ttlOpt msOpt) (calls.take n)).cache.length ≤
            (APICache.create ttlOpt msOpt).maxSize) ∧
      (∀ (c : APICache) (url : String) (v : JSVal) (p : Option String)
          (ttl : Option Nat) (now : Nat) (k0 : String) (i0 : CacheItem) (rest : CacheMap),
        c.cache = (k0, i0) :: rest → k0 ≠ "" →
        (∀ kv ∈ c.cache, now ≤ kv.2.expiresAt) →
        c.maxSize ≤ c.cache.length →
        (c.set url v p ttl now).cache =
          mapSet rest (APICache.generateKey url p)
            { data := v, timestamp := now, expiresAt := now + jsOr ttl c.defaultTTL }) ∧
      keysOf ((((APICache.create none (some 2)).set "a" (.vstr "A") none none 0).set
          "b" (.vstr "B") none none 0).set "c" (.vstr "C") none none 0).cache = ["b", "c"] := by
  refine ⟨?_, ?_, by decide⟩
  · intro ttlOpt msOpt calls hks n
    have h := runSets_inv (calls.take n) (APICache.create ttlOpt msOpt)
      (jsOr_pos (by norm_num)) (by simp [APICache.create]) (by simp [APICache.create, keysOf])
      (fun call hm => hks call (List.take_subset n calls hm))
    exact h.1
  · intro c url v p ttl now k0 i0 rest hc hk0 hexp hge
    rw [set_cache_eq, evictExpired_eq_self hexp, evictLRU_cache_of_head hc hk0 hge]

/-- C5, witness: the amended capacity bound and the eviction equation at
concrete inputs. -/
theorem claim_C5_witness :
    (runSets (APICache.create none (some 2))
          (List.take 3 [⟨"a", .vstr "A", none, none, 0⟩, ⟨"b", .vstr "B", none, none, 0⟩,
            ⟨"c", .vstr "C", none, none, 0⟩])).cache.length ≤
        (APICache.create none (some 2)).maxSize ∧
      (({ cache := [("a", { data := .vstr "A", timestamp := 0, expiresAt := 300000 }),
              ("b", { data := .vstr "B", timestamp := 0, expiresAt := 300000 })],
            maxSize := 2, defaultTTL := 300000 } : APICache).set "c" (.vstr "C") none none 0).cache =
        mapSet [("b", { data := .vstr "B", timestamp := 0, expiresAt := 300000 })]
          (APICache.generateKey "c" none)
          { data := .vstr "C", timestamp := 0, expiresAt := 0 + jsOr none 300000 } :=
  ⟨claim_C5_capacity_bound.1 none (some 2)
      [⟨"a", .vstr "A", none, none, 0⟩, ⟨"b", .vstr "B", none, none, 0⟩,
        ⟨"c", .vstr "C", none, none, 0⟩] (by decide) 3,
    claim_C5_capacity_bound.2.1
      { cache := [("a", { data := .vstr "A", timestamp := 0, expiresAt := 300000 }),
            ("b", { data := .vstr "B", timestamp := 0, expiresAt := 300000 })],
          maxSize := 2, defaultTTL := 300000 }
      "c" (.vstr "C") none none 0 "a" { data := .vstr "A", timestamp := 0, expiresAt := 300000 }
      [("b", { data := .vstr "B", timestamp := 0, expiresAt := 300000 })]
      rfl (by decide) (by decide) (by decide)⟩

/-- C10, counterexample: the claim says a `set` issued with the count at
maxSize evicts the first entry in iteration order even when the key is
already present.  With maxSize = 2 and entries under the keys "" and
"x" (count = maxSize, key "x" present), `set("x")` evicts nothing: the
falsy first key "" survives (`if (firstKey)`), the map still holds ""
afterwards, and no live entry is removed. -/
theorem claim_C10_counterexample :
    (((APICache.create none (some 2)).set "" (.vstr "A") none none 0).set
          "x" (.vstr "B") none none 0).cache.length = 2 ∧
      (((APICache.create none (some 2)).set "" (.vstr "A") none none 0).set
          "x" (.vstr "B") none none 0).maxSize = 2 ∧
      "x" ∈ keysOf ((((APICache.create none (some 2)).set "" (.vstr "A") none none 0).set
          "x" (.vstr "B") none none 0).cache) ∧
      "" ∈ keysOf (((((APICache.create none (some 2)).set "" (.vstr "A") none none 0).set
          "x" (.vstr "B") none none 0).set "x" (.vstr "C") none none 0).cache) ∧
      ((((APICache.create none (some 2)).set "" (.vstr "A") none none 0).set
          "x" (.vstr "B") none none 0).set "x" (.vstr "C") none none 0).cache.length = 2 := by
  refine ⟨rfl, rfl, by decide, by decide, rfl⟩

/-- C10, amended: when the cache has no expired entries, distinct keys,
a nonempty first key and count at or above maxSize, a `set` evicts the
first entry in iteration order even when the written key is already
present; in particular overwriting an existing non-oldest key at
capacity removes a different live entry and strictly shrinks the set of
distinct cached keys, as in the concrete overwrite of `b` in `[a, b]`
with maxSize = 2, which leaves only `b`. -/
theorem claim_C10_overwrite_evicts :
    (∀ (c : APICache) (url : String) (v : JSVal) (p : Option String)
        (ttl : Option Nat) (now : Nat) (k0 : String) (i0 : CacheItem) (rest : CacheMap),
      (keysOf c.cache).Nodup → c.cache = (k0, i0) :: rest → k0 ≠ "" →
      (∀ kv ∈ c.cache, now ≤ kv.2.expiresAt) →
      c.maxSize ≤ c.cache.length →
      APICache.generateKey url p ∈ keysOf c.cache →
      APICache.generateKey url p ≠ k0 →
      k0 ∉ keysOf (c.set url v p ttl now).cache ∧
        (c.set url v p ttl now).cache.length + 1 = c.cache.length) ∧
      keysOf ((((APICache.create none (some 2)).set "a" (.vstr "A") none none 0).set
          "b" (.vstr "B") none none 0).set "b" (.vstr "C") none none 0).cache = ["b"] := by
  refine ⟨?_, by decide⟩
  intro c url v p ttl now k0 i0 rest hnd hc hk0 hexp hge hmem hne
  have hrest : APICache.generateKey url p ∈ keysOf rest := by
    rw [hc, keysOf_cons] at hmem
    rcases List.mem_cons.mp hmem with h | h
    · exact absurd h hne
    · exact h
  have hcache : (c.set url v p ttl now).cache =
      mapSet rest (APICache.generateKey url p)
        { data := v, timestamp := now, expiresAt := now + jsOr ttl c.defaultTTL } := by
    rw [set_cache_eq, evictExpired_eq_self hexp, evictLRU_cache_of_head hc hk0 hge]
  constructor
  · rw [hcache, keysOf_mapSet_of_mem _ hrest]
    rw [hc, keysOf_cons] at hnd
    exact (List.nodup_cons.mp hnd).1
  · rw [hcache, length_mapSet_of_mem _ hrest, hc]
    rfl

/-- C10, witness: the amended eviction behaviour at the concrete
overwrite of `b` in a full cache `[a, b]` with maxSize = 2. -/
theorem claim_C10_witness :
    "a" ∉ keysOf ((({ cache := [("a", { data := .vstr "A", timestamp := 0, expiresAt := 300000 }),
                        ("b", { data := .vstr "B", timestamp := 0, expiresAt := 300000 })],
                      maxSize := 2, defaultTTL := 300000 } : APICache).set
            "b" (.vstr "C") none none 0).cache) ∧
      (({ cache := [("a", { data := .vstr "A", timestamp := 0, expiresAt := 300000 }),
              ("b", { data := .vstr "B", timestamp := 0, expiresAt := 300000 })],
            maxSize := 2, defaultTTL := 300000 } : APICache).set
            "b" (.vstr "C") none none 0).cache.length + 1 = 2 :=
  claim_C10_overwrite_evicts.1
    { cache := [("a", { data := .vstr "A", timestamp := 0, expiresAt := 300000 }),
          ("b", { data := .vstr "B", timestamp := 0, expiresAt := 300000 })],
        maxSize := 2, defaultTTL := 300000 }
    "b" (.vstr "C") none none 0 "a" { data := .vstr "A", timestamp := 0, expiresAt := 300000 }
    [("b", { data := .vstr "B", timestamp := 0, expiresAt := 300000 })]
    (by decide) rfl (by decide) (by decide) (by decide) (by decide) (by decide)

/-- Helper: with skip already forced, a network answering 429 on every
attempt drives `fetchTMDB` through its entire fuel, one network call per
recursion level, never resolving. -/
theorem fetchTMDB_allRateLimited_skip (n : Nat) (token endpoint : String)
    (ttl : Option Nat) (st : APICache) (now idx : Nat) :
    fetchTMDB (some token) endpoint n ⟨ttl, true⟩ st now
        (fun _ => NetResp.httpErr 429 "Too Many Requests") idx =
      { outcome := .diverged, cache := st, nextIdx := idx + n, calls := n } := by
  induction n generalizing st now idx with
  | zero => simp [fetchTMDB]
  | succ m ih =>
    have h429 : strIncludes (httpMsg 429 "Too Many Requests") "429" = true := by decide
    simp only [fetchTMDB, cachedFetch]
    simp [h429, ih, TResult.mk.injEq]
    omega

/-- `get` on a freshly constructed (empty) cache misses and leaves the
cache unchanged. -/
theorem get_create_none (tc mc : Option Nat) (url : String) (p : Option String) (now : Nat) :
    (APICache.create tc mc).get url p now = (none, APICache.create tc mc) := by
  have h : (APICache.create tc mc).evictExpired now = APICache.create tc mc :=
    evictExpired_eq_self (by simp [APICache.create])
  simp only [APICache.get, h]
  rfl

/-- C1, counterexample: the claim says two consecutive 429 responses
make `fetchTMDB` reject after exactly two network attempts.  The retry
is a full recursive call with its own catch, so a second 429 triggers a
further retry: against a network answering 429, 429, then 200 with
payload P, the call makes three attempts and resolves with P instead of
rejecting after two. -/
theorem claim_C1_counterexample :
    (fetchTMDB (some "T") "/e" 10 ⟨none, false⟩ (APICache.create none none) 0
        (fun i => if i < 2 then NetResp.httpErr 429 "Too Many Requests"
          else NetResp.ok (.vstr "P")) 0).calls = 3 ∧
      (fetchTMDB (some "T") "/e" 10 ⟨none, false⟩ (APICache.create none none) 0
        (fun i => if i < 2 then NetResp.httpErr 429 "Too Many Requests"
          else NetResp.ok (.vstr "P")) 0).outcome = TOutcome.ok (.vstr "P") := by
  refine ⟨by decide, by decide⟩

/-- C1, amended: a 429 failure makes `fetchTMDB` wait 1000 ms and
recursively re-invoke itself with skip forced true, with no bound on the
retry depth: every consecutive 429 triggers a further retry, so a
network answering 429 on every attempt makes the call consume any
amount of fuel n with exactly n network attempts and never settle —
an unbounded retry loop rather than a failure after two attempts.  This
holds both with skip already set and for a plain call on a fresh
constructor-built cache. -/
theorem claim_C1_amended :
    (∀ (n : Nat) (token endpoint : String) (ttl : Option Nat) (st : APICache) (now idx : Nat),
        fetchTMDB (some token) endpoint n ⟨ttl, true⟩ st now
            (fun _ => NetResp.httpErr 429 "Too Many Requests") idx =
          { outcome := .diverged, cache := st, nextIdx := idx + n, calls := n }) ∧
      (∀ (n : Nat) (token endpoint : String) (ttl tc mc : Option Nat) (now idx : Nat),
        fetchTMDB (some token) endpoint (n + 1) ⟨ttl, false⟩ (APICache.create tc mc) now
            (fun _ => NetResp.httpErr 429 "Too Many Requests") idx =
          { outcome := .diverged, cache := APICache.create tc mc,
            nextIdx := idx + (n + 1), calls := n + 1 }) := by
  refine ⟨fetchTMDB_allRateLimited_skip, ?_⟩
  intro n token endpoint ttl tc mc now idx
  have h429 : strIncludes (httpMsg 429 "Too Many Requests") "429" = true := by decide
  simp only [fetchTMDB, cachedFetch]
  simp [get_create_none, h429, fetchTMDB_allRateLimited_skip, TResult.mk.injEq]
  omega

/-- C8: building a discovery query omits every parameter whose value is
undefined, null or the empty string — the concrete example keeps only
`page` and `sort`; pre-dropping absent filters does not change the query
string; `{genre: ''}` and `{}` build the same `/discover/tv` endpoint
and hence the same cache key for any token. -/
theorem claim_C8_param_filtering :
    buildQueryString [("page", .vnum 1), ("genre", .vstr ""), ("rating", .vundefined),
        ("sort", .vstr "x")] = "page=1&sort=x" ∧
      (∀ params : List (String × JSVal),
        buildQueryString (params.filter (fun kv => keepParam kv.2)) =
          buildQueryString params) ∧
      discoverTVEndpoint [("genre", .vstr "")] = discoverTVEndpoint [] ∧
      discoverTVEndpoint [] = "/discover/tv" ∧
      (∀ token : String,
        APICache.generateKey (BASE_URL ++ discoverTVEndpoint [("genre", .vstr "")])
            (some (tmdbOptions token)) =
          APICache.generateKey (BASE_URL ++ discoverTVEndpoint [])
            (some (tmdbOptions token))) := by
  refine ⟨by decide, ?_, by decide, by decide, fun token => rfl⟩
  intro params
  simp [buildQueryString, List.filter_filter]

/-- C9: with no API token configured, `fetchTMDB` (and hence every
operation delegating to it, e.g. `discoverTVShows`) rejects immediately
with the configuration message, leaving the cache untouched and making
zero network attempts and zero retries; the configuration message is
distinct in kind from network failures — it contains neither "HTTP" nor
"429", so the retry and HTTP-rethrow branches can never fire on it. -/
theorem claim_C9_missing_credential :
    (∀ (endpoint : String) (copts : CacheOpts) (st : APICache) (now : Nat)
        (net : Nat → NetResp) (idx fuel : Nat),
      fetchTMDB none endpoint (fuel + 1) copts st now net idx =
        { outcome := .err configMsg, cache := st, nextIdx := idx, calls := 0 }) ∧
      strIncludes configMsg "HTTP" = false ∧
      strIncludes configMsg "429" = false ∧
      (∀ (params : List (String × JSVal)) (st : APICache) (now : Nat)
        (net : Nat → NetResp) (idx fuel : Nat),
      discoverTVShows none params (fuel + 1) st now net idx =
        { outcome := .err configMsg, cache := st, nextIdx := idx, calls := 0 }) := by
  refine ⟨fun endpoint copts st now net idx fuel => rfl, by decide, by decide,
    fun params st now net idx fuel => rfl⟩
